import Mathlib

/-!
Verification development for the nvtt `Surface` layer
(`src/nvtt/Surface.cpp`): a shallow embedding of the data model and of
the operations referenced by the specification, together with theorems
settling the specification claims.

Machine floats are modelled as exact rationals (`ℚ`); C `int`/`uint`
values that are provably non-negative in context are modelled as `Nat`.
Division by zero in `ℚ`/`Nat` follows the Lean convention (result 0);
wherever a claim hinges on a zero denominator this is called out
explicitly in the corresponding theorem.
-/

namespace Nvtt

/-- Wrap modes of a surface (nvtt.h enum `WrapMode`). -/
inductive WrapMode where
  | Clamp | Repeat | Mirror
deriving DecidableEq, Repr

/-- Alpha modes of a surface (nvtt.h enum `AlphaMode`). -/
inductive AlphaMode where
  | None | Transparency | Premultiplied
deriving DecidableEq, Repr

/-- Texture dimensionality tag (nvtt.h enum `TextureType`). -/
inductive TextureType where
  | T2D | TCube | T3D
deriving DecidableEq, Repr

/-- Extent rounding modes (nvtt.h enum `RoundMode`). -/
inductive RoundMode where
  | None | ToNextPowerOfTwo | ToNearestPowerOfTwo | ToPreviousPowerOfTwo
deriving DecidableEq, Repr

/-- Compressed formats referenced by `Surface.cpp` (nvtt.h enum `Format`).
The `BC1`/`BC2`/`BC3` spellings used by `setImage2D` are aliases of the
`DXT` constructors, as in the public header. -/
inductive Format where
  | RGBA | DXT1 | DXT1a | DXT1n | DXT3 | DXT5 | DXT5n
  | BC4 | BC5 | CTX1 | BC6 | BC7
deriving DecidableEq, Repr

/-- Alias `Format_BC1 = Format_DXT1`. -/
def Format.BC1 : Format := Format.DXT1
/-- Alias `Format_BC2 = Format_DXT3`. -/
def Format.BC2 : Format := Format.DXT3
/-- Alias `Format_BC3 = Format_DXT5`. -/
def Format.BC3 : Format := Format.DXT5

/-- Block decoder conventions (nvtt.h enum `Decoder`). -/
inductive Decoder where
  | D3D10 | D3D9 | NV5x
deriving DecidableEq, Repr

/-- Normal transform kinds (nvtt.h enum `NormalTransform`). -/
inductive NormalTransform where
  | Orthographic | Stereographic | Paraboloid | Quartic
deriving DecidableEq, Repr

/-- Modelled from the spec: `nv::nextPowerOfTwo` (nvcore, not under src/)
returns the smallest power of two that is at least its argument. -/
def nextPowerOfTwo (v : Nat) : Nat := 2 ^ Nat.clog 2 v

/-- Embeds the anonymous-namespace helper `previousPowerOfTwo` in
`Surface.cpp`: `nextPowerOfTwo(v + 1) / 2` (1 -> 1, 2 -> 2, 3 -> 2, 4 -> 4, 5 -> 4). -/
def previousPowerOfTwo (v : Nat) : Nat := nextPowerOfTwo (v + 1) / 2

/-- Embeds the anonymous-namespace helper `nearestPowerOfTwo` in
`Surface.cpp`: whichever of next/previous power of two is closer,
ties going to the next one. -/
def nearestPowerOfTwo (v : Nat) : Nat :=
  let np2 := nextPowerOfTwo v
  let pp2 := previousPowerOfTwo v
  if np2 - v ≤ v - pp2 then np2 else pp2

/-- Termination measure for the `countMipmaps` halving loops. -/
def mipMeasure (x : Nat) : Nat := if x = 0 then 2 else x

/-- Embeds `nv::countMipmaps(uint w)`: 1 + number of halving steps
(each axis floored, minimum 1) until the value reaches 1. -/
def countMipmaps1 (w : Nat) : Nat :=
  if w = 1 then 1
  else countMipmaps1 (max 1 (w / 2)) + 1
termination_by mipMeasure w
decreasing_by
  simp only [mipMeasure]
  rcases w with _ | _ | w <;> simp_all <;> omega

/-- Embeds `nv::countMipmaps(uint w, uint h, uint d)`: halve all three
axes simultaneously until all reach 1. -/
def countMipmaps3 (w h d : Nat) : Nat :=
  if w = 1 ∧ h = 1 ∧ d = 1 then 1
  else countMipmaps3 (max 1 (w / 2)) (max 1 (h / 2)) (max 1 (d / 2)) + 1
termination_by mipMeasure w + mipMeasure h + mipMeasure d
decreasing_by
  simp only [mipMeasure]
  rcases w with _ | _ | w <;> rcases h with _ | _ | h <;> rcases d with _ | _ | d <;>
    simp_all <;> omega

/-- First stage of `nv::getTargetExtent`: when a rounding mode is
requested and the cap is positive, the cap is first rounded down to a
power of two ("rounded max extent should never be higher than original
max extent"). -/
def preRoundCap (maxExtent : Nat) (roundMode : RoundMode) : Nat :=
  if roundMode ≠ RoundMode.None ∧ 0 < maxExtent then previousPowerOfTwo maxExtent
  else maxExtent

/-- Second stage of `nv::getTargetExtent`: scale the extents uniformly
(preserving aspect ratio) so that the largest dimension fits under the
cap; each scaled axis is floored at 1. -/
def capExtents (width height depth maxExtent : Nat) : Nat × Nat × Nat :=
  let m := max (max width height) depth
  if 0 < maxExtent ∧ maxExtent < m then
    (max (width * maxExtent / m) 1, max (height * maxExtent / m) 1,
     max (depth * maxExtent / m) 1)
  else (width, height, depth)

/-- Third stage of `nv::getTargetExtent`: 2D textures force `d = 1`,
cube textures force `w = h = (w + h) / 2` and `d = 1`. -/
def shapeForType (textureType : TextureType) (w h d : Nat) : Nat × Nat × Nat :=
  match textureType with
  | TextureType.T2D => (w, h, 1)
  | TextureType.TCube => ((w + h) / 2, (w + h) / 2, 1)
  | TextureType.T3D => (w, h, d)

/-- Last stage of `nv::getTargetExtent`: round one axis per the
rounding mode. -/
def roundExtent (roundMode : RoundMode) (v : Nat) : Nat :=
  match roundMode with
  | RoundMode.None => v
  | RoundMode.ToNextPowerOfTwo => nextPowerOfTwo v
  | RoundMode.ToNearestPowerOfTwo => nearestPowerOfTwo v
  | RoundMode.ToPreviousPowerOfTwo => previousPowerOfTwo v

/-- Embeds `nv::getTargetExtent`: pre-round the cap when rounding is
requested, scale the extents uniformly under the cap, force the shape
required by the texture type, then round each axis. Returns the
written-back `(width, height, depth)`. -/
def getTargetExtent (width height depth : Nat) (maxExtent : Nat)
    (roundMode : RoundMode) (textureType : TextureType) : Nat × Nat × Nat :=
  let cap := preRoundCap maxExtent roundMode
  let p := capExtents width height depth cap
  let q := shapeForType textureType p.1 p.2.1 p.2.2
  (roundExtent roundMode q.1, roundExtent roundMode q.2.1, roundExtent roundMode q.2.2)

/-- The planar floating-point pixel buffer (`nv::FloatImage`), modelled
as its shape plus a total pixel-access function `data channel x y z`
(values at in-range coordinates are the buffer contents; out-of-range
reads are irrelevant to the embedded operations). -/
structure FloatImage where
  width : Nat
  height : Nat
  depth : Nat
  data : Nat → Nat → Nat → Nat → ℚ

/-- Pixel count of a buffer (`FloatImage::pixelCount`). -/
def FloatImage.pixelCount (img : FloatImage) : Nat :=
  img.width * img.height * img.depth

/-- The reference-counted state behind a surface handle
(`Surface::Private`): the optional pixel buffer plus metadata. -/
structure SurfaceState where
  image : Option FloatImage
  wrapMode : WrapMode
  alphaMode : AlphaMode
  isNormalMap : Bool
  type : TextureType

/-- Embeds `Surface::isNull`: true when no buffer is attached. -/
def SurfaceState.isNull (s : SurfaceState) : Bool := s.image.isNone

/-- Embeds `Surface::width` (0 for a null surface). -/
def SurfaceState.width (s : SurfaceState) : Nat :=
  match s.image with | some img => img.width | none => 0

/-- Embeds `Surface::height` (0 for a null surface). -/
def SurfaceState.height (s : SurfaceState) : Nat :=
  match s.image with | some img => img.height | none => 0

/-- Embeds `Surface::depth` (0 for a null surface). -/
def SurfaceState.depth (s : SurfaceState) : Nat :=
  match s.image with | some img => img.depth | none => 0

/-- Embeds `Surface::countMipmaps()`: 0 for a null surface, otherwise
the three-argument helper applied to `(width, height, 1)`. -/
def SurfaceState.countMipmaps (s : SurfaceState) : Nat :=
  match s.image with
  | none => 0
  | some img => countMipmaps3 img.width img.height 1

/-- Reads one channel value of one pixel through a surface handle
(0 for a null surface); the observation used to compare surfaces. -/
def SurfaceState.pixel (s : SurfaceState) (c x y z : Nat) : ℚ :=
  match s.image with
  | some img => img.data c x y z
  | none => 0

/-- Embeds `nv::clamp(x, lo, hi)` (= `min(max(x, lo), hi)`). -/
def nvClamp (x lo hi : ℚ) : ℚ := min (max x lo) hi

/-- Maps all four channels of every pixel through a pointwise kernel,
the shape of the in-place per-pixel loops of `Surface.cpp`. -/
def FloatImage.mapPixels4 (f : ℚ → ℚ → ℚ → ℚ → ℚ × ℚ × ℚ × ℚ)
    (img : FloatImage) : FloatImage :=
  { img with data := fun c x y z =>
      let p := f (img.data 0 x y z) (img.data 1 x y z) (img.data 2 x y z) (img.data 3 x y z)
      if c = 0 then p.1
      else if c = 1 then p.2.1
      else if c = 2 then p.2.2.1
      else if c = 3 then p.2.2.2
      else img.data c x y z }

/-- Per-pixel kernel of `Surface::toRGBM`: clamp the threshold to
`[1e-6, 1]`, clamp RGB to `[0, 1]`, divide by `M = max(R, G, B, threshold)`
and store `(M - threshold) / (1 - threshold)` in alpha. The `range`
argument is unused by the shipped forward path (`irange` is dead). -/
def rgbmForward (threshold : ℚ) (r g b _a : ℚ) : ℚ × ℚ × ℚ × ℚ :=
  let th := nvClamp threshold (1 / 1000000) 1
  let R := nvClamp r 0 1
  let G := nvClamp g 0 1
  let B := nvClamp b 0 1
  let M := max (max R G) (max B th)
  (R / M, G / M, B / M, (M - th) / (1 - th))

/-- Per-pixel kernel of `Surface::fromRGBM`: multiply RGB by
`M = A * range` and set alpha to 1. -/
def rgbmInverse (range : ℚ) (r g b a : ℚ) : ℚ × ℚ × ℚ × ℚ :=
  let M := a * range
  (r * M, g * M, b * M, 1)

/-- Embeds `Surface::toRGBM(range, threshold)` (no-op on a null surface). -/
def SurfaceState.toRGBM (_range threshold : ℚ) (s : SurfaceState) : SurfaceState :=
  match s.image with
  | none => s
  | some img => { s with image := some (img.mapPixels4 (rgbmForward threshold)) }

/-- Embeds `Surface::fromRGBM(range)` (no-op on a null surface). -/
def SurfaceState.fromRGBM (range : ℚ) (s : SurfaceState) : SurfaceState :=
  match s.image with
  | none => s
  | some img => { s with image := some (img.mapPixels4 (rgbmInverse range)) }

/-- Bin selection of `Surface::histogram` for one channel value `f`:
`scale = binCount / rangeMax`, `bias = -scale * rangeMin`, then
`ifloor(f * scale + bias)` clamped to `[0, binCount - 1]`. -/
def histIndex (rangeMin rangeMax : ℚ) (binCount : Nat) (f : ℚ) : Nat :=
  let scale : ℚ := (binCount : ℚ) / rangeMax
  let bias : ℚ := -scale * rangeMin
  let idx : ℤ := ⌊f * scale + bias⌋
  if idx < 0 then 0 else min idx.toNat (binCount - 1)

/-- The bin-selection formula of `Surface::histogram` rewritten in
closed form: `floor(binCount * (f - rangeMin) / rangeMax)` clamped;
proved equal to `histIndex`. -/
def histIndexLinear (rangeMin rangeMax : ℚ) (binCount : Nat) (f : ℚ) : Nat :=
  let idx : ℤ := ⌊(binCount : ℚ) * (f - rangeMin) / rangeMax⌋
  if idx < 0 then 0 else min idx.toNat (binCount - 1)

/-- The bin-selection formula asserted by the specification claim
(written from the claim text, not from the source, for comparison):
`floor((f - rangeMin) / (rangeMax - rangeMin) * binCount)` clamped to
the first/last bin. -/
def histIndexSpec (rangeMin rangeMax : ℚ) (binCount : Nat) (f : ℚ) : Nat :=
  let idx : ℤ := ⌊(f - rangeMin) / (rangeMax - rangeMin) * (binCount : ℚ)⌋
  if idx < 0 then 0 else min idx.toNat (binCount - 1)

/-- Row-major list of all pixel coordinates `(x, y, z)` of a buffer. -/
def FloatImage.coords (img : FloatImage) : List (Nat × Nat × Nat) :=
  (List.range img.depth).flatMap fun z =>
    (List.range img.height).flatMap fun y =>
      (List.range img.width).map fun x => (x, y, z)

/-- Embeds `Surface::histogram(channel, rangeMin, rangeMax, binCount, bins)`:
accumulate one increment per pixel into the caller-provided bins
(no-op on a null surface). -/
def SurfaceState.histogram (channel : Nat) (rangeMin rangeMax : ℚ) (binCount : Nat)
    (bins : Nat → ℤ) (s : SurfaceState) : Nat → ℤ :=
  match s.image with
  | none => bins
  | some img =>
      img.coords.foldl
        (fun acc p =>
          Function.update acc (histIndex rangeMin rangeMax binCount (img.data channel p.1 p.2.1 p.2.2))
            (acc (histIndex rangeMin rangeMax binCount (img.data channel p.1 p.2.1 p.2.2)) + 1))
        bins

/-- One quantization step of `Surface::quantize`:
`floorf(v * scale + offset) / scale`. -/
def qRound (scale offset v : ℚ) : ℚ := (⌊v * scale + offset⌋ : ℤ) / scale

/-- Undithered path of `Surface::quantize`: round every pixel of the
chosen channel independently. -/
def FloatImage.quantizeChannel (channel : Nat) (scale offset : ℚ)
    (img : FloatImage) : FloatImage :=
  { img with data := fun c x y z =>
      if c = channel then qRound scale offset (img.data c x y z) else img.data c x y z }

/-- State of the Floyd-Steinberg loops: the image being written plus the
two sliding error rows (`row0`, `row1`, each of logical size `w + 2`,
modelled as total functions). -/
structure DitherState where
  img : FloatImage
  row0 : Nat → ℚ
  row1 : Nat → ℚ

/-- Inner `x` iteration of the dithered path of `Surface::quantize`:
read `pixel(channel, x, y, 0)` (the code indexes slice 0 even inside the
`z` loop), add the incoming error, round, write back, and diffuse the
new error at weights 7/16, 3/16, 5/16, 1/16. -/
def ditherStepX (channel y : Nat) (scale offset : ℚ) (st : DitherState) (x : Nat) : DitherState :=
  let f := st.img.data channel x y 0
  let qf := qRound scale offset (f + st.row0 (1 + x))
  let diff := f - qf
  let img := { st.img with data := fun c xx yy zz =>
      if c = channel ∧ xx = x ∧ yy = y ∧ zz = 0 then qf else st.img.data c xx yy zz }
  let r0 := Function.update st.row0 (1 + x + 1) (st.row0 (1 + x + 1) + 7 / 16 * diff)
  let r1 := Function.update st.row1 (1 + x - 1) (st.row1 (1 + x - 1) + 3 / 16 * diff)
  let r1 := Function.update r1 (1 + x) (r1 (1 + x) + 5 / 16 * diff)
  let r1 := Function.update r1 (1 + x + 1) (r1 (1 + x + 1) + 1 / 16 * diff)
  ⟨img, r0, r1⟩

/-- One `y` row of the dithered quantize loop, followed by the row swap
and the clearing of the new `row1`. -/
def ditherRow (channel : Nat) (scale offset : ℚ) (w : Nat) (st : DitherState) (y : Nat) :
    DitherState :=
  let st := (List.range w).foldl (ditherStepX channel y scale offset) st
  ⟨st.img, st.row1, fun _ => 0⟩

/-- Dithered path of `Surface::quantize`: for each `z` slice, clear the
error rows and sweep the rows in order (the pixel accesses themselves
address slice 0, as in the code). -/
def FloatImage.quantizeDither (channel : Nat) (scale offset : ℚ)
    (img : FloatImage) : FloatImage :=
  (List.range img.depth).foldl
    (fun im _z =>
      ((List.range im.height).foldl (ditherRow channel scale offset im.width)
        ⟨im, fun _ => 0, fun _ => 0⟩).img)
    img

/-- Embeds `Surface::quantize(channel, bits, exactEndPoints, dither)`:
`exactEndPoints` selects `scale = 2^bits - 1, offset = 0`, otherwise
`scale = 2^bits, offset = 1/2`; then the undithered per-pixel rounding
or the Floyd-Steinberg path (no-op on a null surface). -/
def SurfaceState.quantize (channel bits : Nat) (exactEndPoints dither : Bool)
    (s : SurfaceState) : SurfaceState :=
  match s.image with
  | none => s
  | some img =>
      let scale : ℚ := if exactEndPoints then (2 ^ bits - 1 : ℚ) else (2 ^ bits : ℚ)
      let offset : ℚ := if exactEndPoints then 0 else 1 / 2
      if dither then { s with image := some (img.quantizeDither channel scale offset) }
      else { s with image := some (img.quantizeChannel channel scale offset) }

/-- Embeds the shape/type effect of `Surface::setImage(format, w, h, d, data)`:
allocate a 4-channel `w`-by-`h`-by-`d` buffer and set
`type = (d == 1) ? 2D : 3D`. The ingested pixel values (the
format-dependent conversion loops) are abstracted as `newData`. -/
def SurfaceState.setImage (w h d : Nat) (newData : Nat → Nat → Nat → Nat → ℚ)
    (s : SurfaceState) : SurfaceState :=
  { s with image := some ⟨w, h, d, newData⟩,
           type := if d = 1 then TextureType.T2D else TextureType.T3D }

/-- State-level effect of the accepted branch of `Surface::setImage2D`:
allocate a 4-channel `w`-by-`h`-by-1 buffer, set `type = 2D`, and
scatter the decoded block colors; pixel `(c, x, y)` receives component
`c` of color `(x mod 4, y mod 4)` of block `(x / 4, y / 4)`, whose
value (already scaled by 1/255) is abstracted as `blockData`. -/
def SurfaceState.setImage2DApply (blockData : Nat → Nat → Nat → Nat → Nat → ℚ)
    (w h : Nat) (s : SurfaceState) : SurfaceState :=
  { s with image := some ⟨w, h, 1, fun c x y _z => blockData (x / 4) (y / 4) c (x % 4) (y % 4)⟩,
           type := TextureType.T2D }

/-- Embeds `Surface::canvasSize(w, h, d)`: no-op when null or when the
shape is unchanged; otherwise allocate a zero-filled buffer of the new
shape, copy the overlapping region (extents clamped per axis by the old
shape) at the origin, and set `type` from the clamped depth, exactly as
the code does after reusing `d` for the copy extent. -/
def SurfaceState.canvasSize (w h d : Nat) (s : SurfaceState) : SurfaceState :=
  match s.image with
  | none => s
  | some img =>
      if w = img.width ∧ h = img.height ∧ d = img.depth then s
      else
        let cw := min w img.width
        let ch := min h img.height
        let cd := min d img.depth
        { s with
          image := some ⟨w, h, d, fun c x y z =>
            if c < 4 ∧ x < cw ∧ y < ch ∧ z < cd then img.data c x y z else 0⟩,
          type := if cd = 1 then TextureType.T2D else TextureType.T3D }

/-- Embeds the shape/type effect of
`Surface::resize(w, h, d, filter, filterWidth, params)`: no-op when null
or when the target equals the current shape; otherwise the buffer is
replaced by the output of the external resampling primitive
(modelled from the spec: `FloatImage::resize` returns a buffer of the
target shape, its pixel data abstracted as `resampled`). The texture
type field is not touched by `resize`. -/
def SurfaceState.resize (w h d : Nat) (resampled : Nat → Nat → Nat → Nat → ℚ)
    (s : SurfaceState) : SurfaceState :=
  match s.image with
  | none => s
  | some img =>
      if w = img.width ∧ h = img.height ∧ d = img.depth then s
      else { s with image := some ⟨w, h, d, resampled⟩ }

/-- The reference-counted heap of surface states: a store of states
addressed by identifier, the per-identifier reference count, and the
next fresh identifier. A `Surface` handle is an identifier into the
store; identifiers at or above `next` are unallocated. Modelled from
the spec: the `RefCounted` machinery (`addRef`/`release`) lives in
headers outside src/; copy construction shares the state and increments
the count, destruction decrements it. -/
structure World where
  store : Nat → SurfaceState
  refcount : Nat → Nat
  next : Nat

/-- Embeds `Surface::detach()`: when the state is shared
(`refCount() > 1`), release the shared reference and point the handle
at a fresh clone with reference count 1; otherwise keep the state. -/
def World.detach (w : World) (h : Nat) : World × Nat :=
  if 1 < w.refcount h then
    ({ store := Function.update w.store w.next (w.store h),
       refcount := fun i =>
         if i = w.next then 1 else if i = h then w.refcount h - 1 else w.refcount i,
       next := w.next + 1 }, w.next)
  else (w, h)

/-- The detach-then-mutate pattern of every mutating `Surface` method:
`detach()` first, then apply the state mutation `f` to the (now
exclusively owned) state the handle points at. -/
def World.mutate (f : SurfaceState → SurfaceState) (w : World) (h : Nat) : World × Nat :=
  let p := w.detach h
  ({ p.1 with store := Function.update p.1.store p.2 (f (p.1.store p.2)) }, p.2)

/-- Embeds `Surface::setImage2D(format, decoder, w, h, data)` at the
handle level: formats other than BC1-BC5 are rejected up front with
`false`, before `detach()` and before any modification; accepted
formats detach and rebuild the state via `setImage2DApply`. -/
def World.setImage2D (blockData : Nat → Nat → Nat → Nat → Nat → ℚ) (format : Format)
    (_decoder : Decoder) (width height : Nat) (w : World) (h : Nat) :
    Bool × World × Nat :=
  if format ≠ Format.BC1 ∧ format ≠ Format.BC2 ∧ format ≠ Format.BC3 ∧
     format ≠ Format.BC4 ∧ format ≠ Format.BC5 then
    (false, w, h)
  else
    let p := w.mutate (SurfaceState.setImage2DApply blockData width height) h
    (true, p.1, p.2)

/-- Quadratic coefficient `a = x*x + y*y` of the paraboloid solve in
`Surface::transformNormals`. -/
def paraboloidA (x y : ℚ) : ℚ := x * x + y * y

/-- Discriminant `b*b - 4*a*c` with `b = z`, `c = -1` of the paraboloid
solve in `Surface::transformNormals`. -/
def paraboloidDiscriminant (x y z : ℚ) : ℚ := z * z - 4 * paraboloidA x y * (-1)

/-- Denominator `2*a` of the paraboloid root formula in
`Surface::transformNormals`; the code applies no epsilon floor to it. -/
def paraboloidDenom (x y : ℚ) : ℚ := 2 * paraboloidA x y

/-- The paraboloid root `t = (-b + sqrt(discriminant)) / (2*a)` of
`Surface::transformNormals`, with the square root of the discriminant
passed in as `s` (the embedding works in exact arithmetic, so the
caller supplies `s` with `s * s = discriminant`, `0 ≤ s`). -/
def paraboloidT (x y z s : ℚ) : ℚ := (-z + s) / paraboloidDenom x y

/-- Per-pixel action of the `NormalTransform_Paraboloid` branch of
`Surface::transformNormals`: scale `x`, `y` by the paraboloid root and
zero `z`. -/
def paraboloidKernel (x y z s : ℚ) : ℚ × ℚ × ℚ :=
  (x * paraboloidT x y z s, y * paraboloidT x y z s, 0)

/-! ## Theorems -/

/-- Helper: the simultaneous-halving count with depth 1 equals the
single-axis count of the larger of width and height. -/
theorem countMipmaps3_eq_countMipmaps1 (w h : Nat) (hw : 1 ≤ w) (hh : 1 ≤ h) :
    countMipmaps3 w h 1 = countMipmaps1 (max w h) := by
  generalize hn : max w h = n
  induction n using Nat.strong_induction_on generalizing w h with
  | _ n ih =>
    by_cases hb : w = 1 ∧ h = 1
    · obtain ⟨rfl, rfl⟩ := hb
      simp only [max_self] at hn
      subst hn
      rw [countMipmaps3, countMipmaps1]
      simp
    · have h2 : 2 ≤ n := by omega
      rw [countMipmaps3, countMipmaps1]
      rw [if_neg (by tauto), if_neg (by omega)]
      have hd : max 1 (1 / 2) = 1 := rfl
      rw [hd]
      rw [ih (max 1 (n / 2)) (by omega) (max 1 (w / 2)) (max 1 (h / 2))
            (by omega) (by omega) (by omega)]

/-- C10: `Surface::countMipmaps()` returns 0 for a null surface and
otherwise computes the mip count from width and height only, passing
depth 1 to the three-argument helper, so the surface's actual depth
never influences the result; for positive extents the result is the
single-axis count of the larger of width and height. -/
theorem countMipmaps_from_width_height_only :
    (∀ s : SurfaceState, s.image = none → s.countMipmaps = 0) ∧
    (∀ (s : SurfaceState) (img : FloatImage), s.image = some img →
      s.countMipmaps = countMipmaps3 img.width img.height 1) ∧
    (∀ (s : SurfaceState) (img : FloatImage) (d : Nat), s.image = some img →
      SurfaceState.countMipmaps { s with image := some { img with depth := d } }
        = s.countMipmaps) ∧
    (∀ (s : SurfaceState) (img : FloatImage), s.image = some img →
      1 ≤ img.width → 1 ≤ img.height →
      s.countMipmaps = countMipmaps1 (max img.width img.height)) := by
  refine ⟨?_, ?_, ?_, ?_⟩
  · intro s hs; simp [SurfaceState.countMipmaps, hs]
  · intro s img hs; simp [SurfaceState.countMipmaps, hs]
  · intro s img d hs; simp [SurfaceState.countMipmaps, hs]
  · intro s img hs hw hh
    simp [SurfaceState.countMipmaps, hs, countMipmaps3_eq_countMipmaps1 _ _ hw hh]

/-- Witness for C10 at concrete inputs: a null surface reports 0
mipmaps, and a 300 x 256 x 7 surface reports the same count as a
single-axis 300 chain. -/
theorem countMipmaps_from_width_height_only_witness :
    SurfaceState.countMipmaps ⟨none, WrapMode.Clamp, AlphaMode.None, false, TextureType.T2D⟩ = 0 ∧
    SurfaceState.countMipmaps
      ⟨some ⟨300, 256, 7, fun _ _ _ _ => 0⟩, WrapMode.Clamp, AlphaMode.None, false, TextureType.T3D⟩
      = countMipmaps1 300 := by
  constructor
  · exact countMipmaps_from_width_height_only.1 _ rfl
  · have h := countMipmaps_from_width_height_only.2.2.2
      ⟨some ⟨300, 256, 7, fun _ _ _ _ => 0⟩, WrapMode.Clamp, AlphaMode.None, false, TextureType.T3D⟩
      ⟨300, 256, 7, fun _ _ _ _ => 0⟩ rfl (by norm_num) (by norm_num)
    simpa using h

/-- C2: copy-on-write independence. If two handles share a state (the
reference count of the shared identifier exceeds 1) and one of them
performs any mutating operation (detach followed by an arbitrary state
mutation `f`), then the state observed through the other handle is
bit-for-bit unchanged; the mutator ends up on a fresh identifier it
owns exclusively. -/
theorem cow_mutation_preserves_other_handle (w : World) (id : Nat)
    (f : SurfaceState → SurfaceState)
    (hvalid : id < w.next) (hshared : 1 < w.refcount id) :
    ((World.mutate f w id).1).store id = w.store id ∧
    (World.mutate f w id).2 ≠ id ∧
    ((World.mutate f w id).1).refcount ((World.mutate f w id).2) = 1 := by
  have hne : id ≠ w.next := by omega
  simp only [World.mutate, World.detach, if_pos hshared]
  refine ⟨?_, fun hc => hne hc.symm, ?_⟩
  · rw [Function.update_noteq hne, Function.update_noteq hne]
  · simp

/-- Witness for C2: a concrete world where identifier 0 is shared by
two handles; after one handle sets the normal-map flag, the other still
observes the original state. -/
theorem cow_mutation_preserves_other_handle_witness :
    ((World.mutate (fun s => { s with isNormalMap := true })
        ⟨fun _ => ⟨none, WrapMode.Clamp, AlphaMode.None, false, TextureType.T2D⟩,
         fun _ => 2, 1⟩ 0).1).store 0
      = ⟨none, WrapMode.Clamp, AlphaMode.None, false, TextureType.T2D⟩ :=
  (cow_mutation_preserves_other_handle
    ⟨fun _ => ⟨none, WrapMode.Clamp, AlphaMode.None, false, TextureType.T2D⟩, fun _ => 2, 1⟩
    0 (fun s => { s with isNormalMap := true }) (by decide) (by decide)).1

/-- C9: `Surface::setImage2D` rejects every format outside
BC1/BC2/BC3/BC4/BC5 by returning `false` before `detach()` runs and
before anything is modified: the whole world (states and reference
counts) and the handle are returned unchanged. -/
theorem setImage2D_rejects_unsupported (blockData : Nat → Nat → Nat → Nat → Nat → ℚ)
    (format : Format) (decoder : Decoder) (width height : Nat) (w : World) (h : Nat)
    (hfmt : format ≠ Format.BC1 ∧ format ≠ Format.BC2 ∧ format ≠ Format.BC3 ∧
            format ≠ Format.BC4 ∧ format ≠ Format.BC5) :
    World.setImage2D blockData format decoder width height w h = (false, w, h) := by
  rw [World.setImage2D, if_pos hfmt]

/-- Witness for C9: ingesting a BC7 buffer into a concrete shared world
fails and leaves the world and handle untouched. -/
theorem setImage2D_rejects_unsupported_witness :
    World.setImage2D (fun _ _ _ _ _ => 0) Format.BC7 Decoder.D3D10 8 8
      ⟨fun _ => ⟨none, WrapMode.Clamp, AlphaMode.None, false, TextureType.T2D⟩, fun _ => 2, 1⟩ 0
      = (false,
         ⟨fun _ => ⟨none, WrapMode.Clamp, AlphaMode.None, false, TextureType.T2D⟩, fun _ => 2, 1⟩,
         0) :=
  setImage2D_rejects_unsupported (fun _ _ _ _ _ => 0) Format.BC7 Decoder.D3D10 8 8
    ⟨fun _ => ⟨none, WrapMode.Clamp, AlphaMode.None, false, TextureType.T2D⟩, fun _ => 2, 1⟩ 0
    (by decide)

/-- Counterexample to C7: at the unit normal (0, 0, 1) — a flat,
straight-up normal, explicitly included in the claim — the denominator
`2 * a` of the paraboloid root solve is exactly zero: no epsilon floor
is applied to it, and the code evaluates 0/0 there. -/
theorem paraboloid_denominator_zero_at_pole :
    (0 : ℚ) * 0 + 0 * 0 + 1 * 1 = 1 ∧
    paraboloidDenom 0 0 = 0 ∧
    paraboloidDiscriminant 0 0 1 = 1 := by
  norm_num [paraboloidDenom, paraboloidA, paraboloidDiscriminant]

/-- C7 amended: the paraboloid solve is well-defined exactly away from
the poles. For every unit normal with `(x, y) ≠ (0, 0)` the denominator
`2 * a` is nonzero, the root `t` computed by the code (with `s` the
nonnegative square root of the discriminant) is positive, and it indeed
solves `a * t^2 + b * t + c = 0` with `b = z`, `c = -1`. -/
theorem paraboloid_solve_wellDefined_off_pole (x y z s : ℚ)
    (hunit : x * x + y * y + z * z = 1) (hxy : ¬(x = 0 ∧ y = 0))
    (hs : s * s = paraboloidDiscriminant x y z) (hs0 : 0 ≤ s) :
    paraboloidDenom x y ≠ 0 ∧ 0 < paraboloidT x y z s ∧
    paraboloidA x y * paraboloidT x y z s ^ 2 + z * paraboloidT x y z s + (-1) = 0 := by
  have ha : 0 < paraboloidA x y := by
    rcases lt_trichotomy x 0 with hx | hx | hx
    · have : 0 < x * x := by nlinarith
      unfold paraboloidA; nlinarith [mul_self_nonneg y]
    · have hy : y ≠ 0 := fun hy0 => hxy ⟨hx, hy0⟩
      have : 0 < y * y := by
        rcases lt_trichotomy y 0 with h | h | h
        · nlinarith
        · exact absurd h hy
        · nlinarith
      unfold paraboloidA; nlinarith [mul_self_nonneg x]
    · have : 0 < x * x := by nlinarith
      unfold paraboloidA; nlinarith [mul_self_nonneg y]
  have hdenom : paraboloidDenom x y ≠ 0 := by
    unfold paraboloidDenom; positivity
  have hdisc : s * s = z * z + 4 * paraboloidA x y := by
    rw [hs]; unfold paraboloidDiscriminant; ring
  have hsz : z < s := by
    nlinarith [abs_nonneg z, sq_abs z, le_abs_self z]
  have ht : 0 < paraboloidT x y z s := by
    unfold paraboloidT paraboloidDenom
    apply div_pos <;> [linarith; positivity]
  refine ⟨hdenom, ht, ?_⟩
  unfold paraboloidT paraboloidDenom at *
  have h2a : (2 : ℚ) * paraboloidA x y ≠ 0 := hdenom
  field_simp
  nlinarith [hdisc]

/-- Witness for C7 amended at the unit normal (1, 0, 0) with
discriminant 4 and square root 2: the denominator is nonzero, the root
is positive and solves the quadratic. -/
theorem paraboloid_solve_wellDefined_off_pole_witness :
    paraboloidDenom 1 0 ≠ 0 ∧ 0 < paraboloidT 1 0 0 2 ∧
    paraboloidA 1 0 * paraboloidT 1 0 0 2 ^ 2 + 0 * paraboloidT 1 0 0 2 + (-1) = 0 :=
  paraboloid_solve_wellDefined_off_pole 1 0 0 2 (by norm_num) (by norm_num)
    (by norm_num [paraboloidDiscriminant, paraboloidA]) (by norm_num)

/-- Counterexample to C1: on a 1 x 1 surface whose pixel is
(1/2, 1/2, 1/2) with `range = 1` and `threshold = 1/4` (channels well
inside [0, range]), `fromRGBM(toRGBM(...))` yields 1/3 on each RGB
channel, not the original 1/2: the shipped inverse multiplies by
`A * range` and never undoes the threshold bias of the forward. -/
theorem rgbm_roundtrip_counterexample :
    (SurfaceState.fromRGBM 1 (SurfaceState.toRGBM 1 (1 / 4)
        ⟨some ⟨1, 1, 1, fun _ _ _ _ => (1 : ℚ) / 2⟩,
         WrapMode.Clamp, AlphaMode.None, false, TextureType.T2D⟩)).pixel 0 0 0 0
      = 1 / 3 ∧ (1 : ℚ) / 3 ≠ 1 / 2 := by
  constructor
  · show SurfaceState.pixel _ 0 0 0 0 = 1 / 3
    simp only [SurfaceState.fromRGBM, SurfaceState.toRGBM, SurfaceState.pixel,
      FloatImage.mapPixels4, rgbmForward, rgbmInverse, nvClamp]
    norm_num
  · norm_num

/-- Helper for C1: the per-pixel RGBM round trip restores the RGB
channels exactly when the channels lie in [0, 1], the largest channel
equals 1, `range = 1` and the threshold is below 1; the alpha channel
is set to 1. -/
theorem rgbm_kernel_roundtrip (r g b a th : ℚ)
    (hr : 0 ≤ r ∧ r ≤ 1) (hg : 0 ≤ g ∧ g ≤ 1) (hb : 0 ≤ b ∧ b ≤ 1)
    (hmax : max r (max g b) = 1) (hth : th < 1) :
    (fun p => rgbmInverse 1 p.1 p.2.1 p.2.2.1 p.2.2.2) (rgbmForward th r g b a)
      = (r, g, b, 1) := by
  have hR : nvClamp r 0 1 = r := by
    unfold nvClamp; rw [max_eq_left hr.1, min_eq_left hr.2]
  have hG : nvClamp g 0 1 = g := by
    unfold nvClamp; rw [max_eq_left hg.1, min_eq_left hg.2]
  have hB : nvClamp b 0 1 = b := by
    unfold nvClamp; rw [max_eq_left hb.1, min_eq_left hb.2]
  have hth6 : nvClamp th (1 / 1000000) 1 = max th (1 / 1000000) := by
    unfold nvClamp
    exact min_eq_left (le_of_lt (max_lt hth (by norm_num)))
  have hthlt : nvClamp th (1 / 1000000) 1 < 1 := by
    rw [hth6]; exact max_lt hth (by norm_num)
  have hM : max (max r g) (max b (nvClamp th (1 / 1000000) 1)) = 1 := by
    apply le_antisymm
    · exact max_le (max_le hr.2 hg.2) (max_le hb.2 (le_of_lt hthlt))
    · calc (1 : ℚ) = max r (max g b) := hmax.symm
        _ ≤ max (max r g) (max b (nvClamp th (1 / 1000000) 1)) := by
            apply max_le
            · exact le_trans (le_max_left r g) (le_max_left _ _)
            · exact max_le (le_trans (le_max_right r g) (le_max_left _ _))
                (le_trans (le_max_left b _) (le_max_right _ _))
  simp only [rgbmForward, rgbmInverse, hR, hG, hB, hM]
  have hne : (1 : ℚ) - nvClamp th (1 / 1000000) 1 ≠ 0 := by
    intro hc; rw [sub_eq_zero] at hc; exact absurd hc.symm (ne_of_lt hthlt)
  rw [div_self hne]
  norm_num

/-- C1 amended: the RGBM round trip `fromRGBM(range) ∘ toRGBM(range, th)`
restores the RGB channels exactly (and sets alpha to 1) for `range = 1`,
`th < 1`, on surfaces all of whose pixels have RGB channels in [0, 1]
with largest channel equal to 1. (In general the round trip multiplies
each channel by `range * (M - th') / ((1 - th') * M)`; the original
claim fails whenever that factor differs from 1, as in the
counterexample.) -/
theorem rgbm_roundtrip_restores_when_max_one (s : SurfaceState) (img : FloatImage) (th : ℚ)
    (himg : s.image = some img) (hth : th < 1)
    (hpix : ∀ x y z, (0 ≤ img.data 0 x y z ∧ img.data 0 x y z ≤ 1) ∧
                     (0 ≤ img.data 1 x y z ∧ img.data 1 x y z ≤ 1) ∧
                     (0 ≤ img.data 2 x y z ∧ img.data 2 x y z ≤ 1) ∧
                     max (img.data 0 x y z) (max (img.data 1 x y z) (img.data 2 x y z)) = 1) :
    ∀ x y z,
      (SurfaceState.fromRGBM 1 (SurfaceState.toRGBM 1 th s)).pixel 0 x y z = img.data 0 x y z ∧
      (SurfaceState.fromRGBM 1 (SurfaceState.toRGBM 1 th s)).pixel 1 x y z = img.data 1 x y z ∧
      (SurfaceState.fromRGBM 1 (SurfaceState.toRGBM 1 th s)).pixel 2 x y z = img.data 2 x y z ∧
      (SurfaceState.fromRGBM 1 (SurfaceState.toRGBM 1 th s)).pixel 3 x y z = 1 := by
  intro x y z
  obtain ⟨hr, hg, hb, hmax⟩ := hpix x y z
  have hk := rgbm_kernel_roundtrip (img.data 0 x y z) (img.data 1 x y z)
    (img.data 2 x y z) (img.data 3 x y z) th hr hg hb hmax hth
  simp only [SurfaceState.toRGBM, SurfaceState.fromRGBM, himg, SurfaceState.pixel,
    FloatImage.mapPixels4] at hk ⊢
  norm_num
  rw [Prod.ext_iff, Prod.ext_iff, Prod.ext_iff] at hk
  simp only at hk
  obtain ⟨h0, h1, h2, h3⟩ := hk
  exact ⟨h0, h1, h2, h3⟩

/-- Witness for C1 amended on a concrete 1 x 1 surface with pixel
(1, 1/2, 0): the round trip with range 1 and threshold 1/4 restores the
RGB channels and sets alpha to 1. -/
theorem rgbm_roundtrip_restores_when_max_one_witness :
    (SurfaceState.fromRGBM 1 (SurfaceState.toRGBM 1 (1 / 4)
        ⟨some ⟨1, 1, 1, fun c _ _ _ => if c = 0 then 1 else if c = 1 then (1 : ℚ) / 2 else 0⟩,
         WrapMode.Clamp, AlphaMode.None, false, TextureType.T2D⟩)).pixel 0 0 0 0 = 1 ∧
    (SurfaceState.fromRGBM 1 (SurfaceState.toRGBM 1 (1 / 4)
        ⟨some ⟨1, 1, 1, fun c _ _ _ => if c = 0 then 1 else if c = 1 then (1 : ℚ) / 2 else 0⟩,
         WrapMode.Clamp, AlphaMode.None, false, TextureType.T2D⟩)).pixel 3 0 0 0 = 1 := by
  have h := rgbm_roundtrip_restores_when_max_one
    ⟨some ⟨1, 1, 1, fun c _ _ _ => if c = 0 then 1 else if c = 1 then (1 : ℚ) / 2 else 0⟩,
     WrapMode.Clamp, AlphaMode.None, false, TextureType.T2D⟩
    ⟨1, 1, 1, fun c _ _ _ => if c = 0 then 1 else if c = 1 then (1 : ℚ) / 2 else 0⟩
    (1 / 4) rfl (by norm_num) (by intro x y z; norm_num) 0 0 0
  refine ⟨?_, h.2.2.2⟩
  have h0 := h.1
  simpa using h0

/-- Helper: folding unit increments over a list bumps each cell by the
number of list entries mapped to it. -/
theorem foldl_update_count {α : Type} (g : α → Nat) (l : List α) (bins : Nat → ℤ) (j : Nat) :
    (l.foldl (fun acc p => Function.update acc (g p) (acc (g p) + 1)) bins) j
      = bins j + ((l.filter fun p => g p = j).length : ℤ) := by
  induction l generalizing bins with
  | nil => simp
  | cons p l ih =>
    rw [List.foldl_cons, ih]
    by_cases h : g p = j
    · subst h
      rw [Function.update_same]
      simp [List.filter_cons]
      ring
    · rw [Function.update_noteq (Ne.symm h)]
      simp [List.filter_cons, h]

/-- Counterexample to C5: a single-pixel surface with channel value 3/2
and range [1, 2] with 2 bins. The claimed bucketing
`floor((f - min) / (max - min) * binCount)` selects bin 1, but the code
(whose scale is `binCount / rangeMax`, not `binCount / (rangeMax - rangeMin)`)
increments bin 0 and leaves bin 1 untouched. -/
theorem histogram_counterexample :
    SurfaceState.histogram 0 1 2 2 (fun _ => 0)
        ⟨some ⟨1, 1, 1, fun _ _ _ _ => (3 : ℚ) / 2⟩,
         WrapMode.Clamp, AlphaMode.None, false, TextureType.T2D⟩ 1 = 0 ∧
    SurfaceState.histogram 0 1 2 2 (fun _ => 0)
        ⟨some ⟨1, 1, 1, fun _ _ _ _ => (3 : ℚ) / 2⟩,
         WrapMode.Clamp, AlphaMode.None, false, TextureType.T2D⟩ 0 = 1 ∧
    histIndexSpec 1 2 2 ((3 : ℚ) / 2) = 1 := by
  have hidx : histIndex 1 2 2 ((3 : ℚ) / 2) = 0 := by norm_num [histIndex]
  have hc : (FloatImage.coords ⟨1, 1, 1, fun _ _ _ _ => (3 : ℚ) / 2⟩) = [(0, 0, 0)] := rfl
  refine ⟨?_, ?_, ?_⟩
  · simp only [SurfaceState.histogram, hc, List.foldl_cons, List.foldl_nil, hidx]
    rw [Function.update_noteq (by norm_num)]
  · simp only [SurfaceState.histogram, hc, List.foldl_cons, List.foldl_nil, hidx]
    rw [Function.update_same]
    norm_num
  · norm_num [histIndexSpec]

/-- C5 amended: `Surface::histogram` adds exactly one increment per
pixel to the caller-provided bins, at index
`floor(binCount * (f - rangeMin) / rangeMax)` clamped to
`[0, binCount - 1]` — the code divides by `rangeMax`, not by
`rangeMax - rangeMin`, so it matches the claimed linear interpolation
over the range only when `rangeMin = 0`. -/
theorem histogram_buckets (s : SurfaceState) (img : FloatImage) (channel : Nat)
    (rangeMin rangeMax : ℚ) (binCount : Nat) (bins : Nat → ℤ)
    (himg : s.image = some img) (hbin : 0 < binCount) :
    (∀ j, SurfaceState.histogram channel rangeMin rangeMax binCount bins s j
      = bins j + ((img.coords.filter fun p =>
          histIndex rangeMin rangeMax binCount (img.data channel p.1 p.2.1 p.2.2) = j).length : ℤ)) ∧
    (∀ f, histIndex rangeMin rangeMax binCount f = histIndexLinear rangeMin rangeMax binCount f) := by
  obtain ⟨simg, swrap, salpha, snm, stype⟩ := s
  simp only at himg
  subst himg
  constructor
  · intro j
    have h := foldl_update_count
      (fun p => histIndex rangeMin rangeMax binCount (img.data channel p.1 p.2.1 p.2.2))
      img.coords bins j
    simp only at h
    exact h
  · intro f
    show (if (⌊f * ((binCount : ℚ) / rangeMax) + -((binCount : ℚ) / rangeMax) * rangeMin⌋ : ℤ) < 0
          then 0
          else min (⌊f * ((binCount : ℚ) / rangeMax) + -((binCount : ℚ) / rangeMax) * rangeMin⌋ : ℤ).toNat (binCount - 1))
        = histIndexLinear rangeMin rangeMax binCount f
    have harg : f * ((binCount : ℚ) / rangeMax) + -((binCount : ℚ) / rangeMax) * rangeMin
        = (binCount : ℚ) * (f - rangeMin) / rangeMax := by ring
    rw [harg]
    rfl

/-- Witness for C5 amended on a concrete two-pixel surface with values
1/4 and 5/4, range [0, 1], 2 bins: the first pixel lands in bin 0, the
out-of-range second pixel is clamped into bin 1. -/
theorem histogram_buckets_witness :
    SurfaceState.histogram 0 0 1 2 (fun _ => 0)
        ⟨some ⟨2, 1, 1, fun _ x _ _ => if x = 0 then (1 : ℚ) / 4 else 5 / 4⟩,
         WrapMode.Clamp, AlphaMode.None, false, TextureType.T2D⟩ 0 = 1 ∧
    SurfaceState.histogram 0 0 1 2 (fun _ => 0)
        ⟨some ⟨2, 1, 1, fun _ x _ _ => if x = 0 then (1 : ℚ) / 4 else 5 / 4⟩,
         WrapMode.Clamp, AlphaMode.None, false, TextureType.T2D⟩ 1 = 1 := by
  have h := (histogram_buckets
    ⟨some ⟨2, 1, 1, fun _ x _ _ => if x = 0 then (1 : ℚ) / 4 else 5 / 4⟩,
     WrapMode.Clamp, AlphaMode.None, false, TextureType.T2D⟩
    ⟨2, 1, 1, fun _ x _ _ => if x = 0 then (1 : ℚ) / 4 else 5 / 4⟩
    0 0 1 2 (fun _ => 0) rfl (by norm_num)).1
  constructor
  · rw [h 0]
    norm_num [FloatImage.coords, List.range_succ, histIndex]
  · rw [h 1]
    norm_num [FloatImage.coords, List.range_succ, histIndex]

/-- Helper: a fold preserves any invariant its step preserves. -/
theorem foldl_preserves {α β : Type _} (P : β → Prop) (step : β → α → β) (l : List α) (b : β)
    (hb : P b) (hstep : ∀ b a, P b → P (step b a)) : P (l.foldl step b) := by
  induction l generalizing b with
  | nil => simpa using hb
  | cons a l ih => exact ih _ (hstep b a hb)

/-- Helper: when the rounding step fixes every pixel of the dithered
channel, one Floyd-Steinberg step leaves the image unchanged and both
error rows zero. -/
theorem ditherStepX_flat (ch y : Nat) (scale offset : ℚ) (img : FloatImage)
    (hq : ∀ xx yy, qRound scale offset (img.data ch xx yy 0) = img.data ch xx yy 0)
    (st : DitherState) (x : Nat)
    (h : st.img = img ∧ st.row0 = (fun _ => 0) ∧ st.row1 = (fun _ => 0)) :
    (ditherStepX ch y scale offset st x).img = img ∧
    (ditherStepX ch y scale offset st x).row0 = (fun _ => 0) ∧
    (ditherStepX ch y scale offset st x).row1 = (fun _ => 0) := by
  obtain ⟨h1, h2, h3⟩ := h
  have hq0 : qRound scale offset (st.img.data ch x y 0 + st.row0 (1 + x))
      = st.img.data ch x y 0 := by
    rw [h1, h2]; simpa using hq x y
  have hq1 : qRound scale offset (st.img.data ch x y 0) = st.img.data ch x y 0 := by
    rw [h1]; exact hq x y
  refine ⟨?_, ?_, ?_⟩
  · simp only [ditherStepX]
    have hdata : (fun c xx yy zz =>
        if c = ch ∧ xx = x ∧ yy = y ∧ zz = 0 then
          qRound scale offset (st.img.data ch x y 0 + st.row0 (1 + x))
        else st.img.data c xx yy zz) = st.img.data := by
      funext c xx yy zz
      by_cases hcond : c = ch ∧ xx = x ∧ yy = y ∧ zz = 0
      · obtain ⟨rfl, rfl, rfl, rfl⟩ := hcond
        rw [if_pos ⟨rfl, rfl, rfl, rfl⟩, hq0]
      · rw [if_neg hcond]
    rw [hdata, h1]
  · funext i
    simp only [ditherStepX, h2]
    norm_num [Function.update, hq0, hq1]
  · funext i
    simp only [ditherStepX, h3]
    norm_num [Function.update, hq0, hq1]

/-- Helper: when rounding fixes every pixel of the dithered channel, the
whole Floyd-Steinberg pass is the identity on the buffer. -/
theorem quantizeDither_flat (ch : Nat) (scale offset : ℚ) (img : FloatImage)
    (hq : ∀ xx yy, qRound scale offset (img.data ch xx yy 0) = img.data ch xx yy 0) :
    FloatImage.quantizeDither ch scale offset img = img := by
  unfold FloatImage.quantizeDither
  apply foldl_preserves (fun im => im = img) _ _ _ rfl
  intro im _z him
  rw [him]
  have hrow := foldl_preserves
    (fun st : DitherState => st.img = img ∧ st.row0 = (fun _ => 0) ∧ st.row1 = (fun _ => 0))
    (ditherRow ch scale offset img.width) (List.range img.height)
    ⟨img, fun _ => 0, fun _ => 0⟩ ⟨rfl, rfl, rfl⟩ ?_
  · exact hrow.1
  · intro st y hst
    have hinner := foldl_preserves
      (fun st : DitherState => st.img = img ∧ st.row0 = (fun _ => 0) ∧ st.row1 = (fun _ => 0))
      (ditherStepX ch y scale offset) (List.range img.width) st hst
      (fun b a hb => ditherStepX_flat ch y scale offset img hq b a hb)
    unfold ditherRow
    exact ⟨hinner.1, hinner.2.2, rfl⟩

/-- Counterexample to C6: a 2 x 1 surface whose channel 0 is constant
7/2550 (so that the value times 255 has fractional part 0.7). The
dithered path diffuses the first pixel's rounding error, pushing the
second pixel over the rounding boundary: dithered quantize yields 1/255
there while the undithered path yields 0 — the outputs differ on a
constant input. -/
theorem quantize_dither_counterexample :
    (SurfaceState.quantize 0 8 true true
        ⟨some ⟨2, 1, 1, fun _ _ _ _ => (7 : ℚ) / 2550⟩,
         WrapMode.Clamp, AlphaMode.None, false, TextureType.T2D⟩).pixel 0 1 0 0 = 1 / 255 ∧
    (SurfaceState.quantize 0 8 true false
        ⟨some ⟨2, 1, 1, fun _ _ _ _ => (7 : ℚ) / 2550⟩,
         WrapMode.Clamp, AlphaMode.None, false, TextureType.T2D⟩).pixel 0 1 0 0 = 0 ∧
    (1 : ℚ) / 255 ≠ 0 := by
  refine ⟨?_, ?_, by norm_num⟩
  · simp only [SurfaceState.quantize, SurfaceState.pixel, FloatImage.quantizeDither,
      List.range_succ, List.range_zero, List.nil_append, List.foldl_cons, List.foldl_nil,
      ditherRow]
    norm_num [ditherStepX, qRound, Function.update]
  · simp only [SurfaceState.quantize, SurfaceState.pixel, FloatImage.quantizeChannel]
    norm_num [qRound]

/-- C6 amended: dithered quantize with `bits = 8`,
`exactEndPoints = true` on a channel holding a single constant value `v`
agrees with the undithered path at every pixel — and both leave the
surface unchanged — provided `v` is exactly representable at the
8-bit quantization level (`v * 255` is an integer). For constant values
between quantization levels the error diffusion produces a dither
pattern and the two paths differ, as the counterexample shows. -/
theorem quantize_dither_flat_input (s : SurfaceState) (img : FloatImage) (ch : Nat) (v : ℚ)
    (himg : s.image = some img)
    (hconst : ∀ x y z, img.data ch x y z = v)
    (hrep : ((⌊v * 255⌋ : ℤ) : ℚ) = v * 255) :
    SurfaceState.quantize ch 8 true true s = SurfaceState.quantize ch 8 true false s ∧
    SurfaceState.quantize ch 8 true true s = s := by
  obtain ⟨simg, swrap, salpha, snm, stype⟩ := s
  simp only at himg
  subst himg
  have hqz : ∀ xx yy zz, qRound ((2 : ℚ) ^ 8 - 1) 0 (img.data ch xx yy zz)
      = img.data ch xx yy zz := by
    intro xx yy zz
    rw [hconst xx yy zz]
    unfold qRound
    have harg : v * ((2 : ℚ) ^ 8 - 1) + 0 = v * 255 := by norm_num
    rw [harg, hrep]
    have h255 : ((2 : ℚ) ^ 8 - 1) = 255 := by norm_num
    rw [h255]
    rw [mul_div_assoc]
    norm_num
  have hdither : FloatImage.quantizeDither ch ((2 : ℚ) ^ 8 - 1) 0 img = img :=
    quantizeDither_flat ch _ 0 img (fun xx yy => hqz xx yy 0)
  have hchan : FloatImage.quantizeChannel ch ((2 : ℚ) ^ 8 - 1) 0 img = img := by
    unfold FloatImage.quantizeChannel
    have hdata : (fun c x y z =>
        if c = ch then qRound ((2 : ℚ) ^ 8 - 1) 0 (img.data c x y z)
        else img.data c x y z) = img.data := by
      funext c x y z
      by_cases hc : c = ch
      · subst hc
        rw [if_pos rfl]
        exact hqz x y z
      · rw [if_neg hc]
    rw [hdata]
  constructor
  · show SurfaceState.quantize ch 8 true true _ = SurfaceState.quantize ch 8 true false _
    simp only [SurfaceState.quantize, if_pos, if_true]
    rw [hdither, hchan]
    simp
  · show SurfaceState.quantize ch 8 true true _ = _
    simp only [SurfaceState.quantize, if_pos, if_true]
    rw [hdither]

/-- Witness for C6 amended on a concrete 2 x 1 surface constant at
2/255 (an exact 8-bit level): the dithered and undithered paths agree. -/
theorem quantize_dither_flat_input_witness :
    SurfaceState.quantize 0 8 true true
        ⟨some ⟨2, 1, 1, fun _ _ _ _ => (2 : ℚ) / 255⟩,
         WrapMode.Clamp, AlphaMode.None, false, TextureType.T2D⟩
      = SurfaceState.quantize 0 8 true false
        ⟨some ⟨2, 1, 1, fun _ _ _ _ => (2 : ℚ) / 255⟩,
         WrapMode.Clamp, AlphaMode.None, false, TextureType.T2D⟩ :=
  (quantize_dither_flat_input
    ⟨some ⟨2, 1, 1, fun _ _ _ _ => (2 : ℚ) / 255⟩,
     WrapMode.Clamp, AlphaMode.None, false, TextureType.T2D⟩
    ⟨2, 1, 1, fun _ _ _ _ => (2 : ℚ) / 255⟩ 0 ((2 : ℚ) / 255) rfl
    (fun _ _ _ => rfl) (by norm_num)).1

/-- Counterexample to C3: growing the depth of a 1 x 1 x 1 surface to 2
via `canvasSize(1, 1, 2)` produces a surface of depth 2 whose
`textureType` is still 2D — the code recomputes the type from the copy
extent `min(new depth, old depth)` (the variable `d` is reused), so the
claimed invariant fails right after this shape-changing operation. -/
theorem canvasSize_type_counterexample :
    (SurfaceState.canvasSize 1 1 2
        ⟨some ⟨1, 1, 1, fun _ _ _ _ => (0 : ℚ)⟩,
         WrapMode.Clamp, AlphaMode.None, false, TextureType.T2D⟩).depth = 2 ∧
    (SurfaceState.canvasSize 1 1 2
        ⟨some ⟨1, 1, 1, fun _ _ _ _ => (0 : ℚ)⟩,
         WrapMode.Clamp, AlphaMode.None, false, TextureType.T2D⟩).type = TextureType.T2D ∧
    ¬((SurfaceState.canvasSize 1 1 2
        ⟨some ⟨1, 1, 1, fun _ _ _ _ => (0 : ℚ)⟩,
         WrapMode.Clamp, AlphaMode.None, false, TextureType.T2D⟩).type = TextureType.T3D ↔
      1 < (SurfaceState.canvasSize 1 1 2
        ⟨some ⟨1, 1, 1, fun _ _ _ _ => (0 : ℚ)⟩,
         WrapMode.Clamp, AlphaMode.None, false, TextureType.T2D⟩).depth) := by
  refine ⟨rfl, rfl, ?_⟩
  intro hiff
  exact absurd (hiff.mpr (show (1 : Nat) < 2 by norm_num)) (by decide)

/-- C3 amended: the type/depth invariant holds after `setImage` (for
depth at least 1) and after `setImage2D`; but `canvasSize` recomputes
the type from the clamped copy extent `min(new depth, old depth)`
rather than the new depth, and `resize` does not touch the type at all. -/
theorem shape_ops_textureType :
    (∀ (s : SurfaceState) (w h d : Nat) (dat : Nat → Nat → Nat → Nat → ℚ), 1 ≤ d →
      (((s.setImage w h d dat).type = TextureType.T3D) ↔ 1 < (s.setImage w h d dat).depth) ∧
      (((s.setImage w h d dat).type = TextureType.T2D) ↔ (s.setImage w h d dat).depth = 1)) ∧
    (∀ (s : SurfaceState) (bd : Nat → Nat → Nat → Nat → Nat → ℚ) (w h : Nat),
      (s.setImage2DApply bd w h).type = TextureType.T2D ∧
      (s.setImage2DApply bd w h).depth = 1) ∧
    (∀ (s : SurfaceState) (img : FloatImage) (w h d : Nat), s.image = some img →
      ¬(w = img.width ∧ h = img.height ∧ d = img.depth) → 1 ≤ d → 1 ≤ img.depth →
      ((s.canvasSize w h d).type = TextureType.T3D ↔ 1 < min d img.depth) ∧
      (s.canvasSize w h d).depth = d) ∧
    (∀ (s : SurfaceState) (w h d : Nat) (rs : Nat → Nat → Nat → Nat → ℚ),
      (s.resize w h d rs).type = s.type) := by
  refine ⟨?_, ?_, ?_, ?_⟩
  · intro s w h d dat hd
    simp only [SurfaceState.setImage, SurfaceState.depth]
    by_cases h1 : d = 1
    · subst h1; simp
    · have hd2 : 1 < d := by omega
      simp only [if_neg h1]
      simp [hd2, h1]
  · intro s bd w h
    exact ⟨rfl, rfl⟩
  · intro s img w h d himg hne hd hid
    obtain ⟨simg, swrap, salpha, snm, stype⟩ := s
    simp only at himg
    subst himg
    simp only [SurfaceState.canvasSize, if_neg hne, SurfaceState.depth]
    refine ⟨?_, by trivial⟩
    by_cases h1 : min d img.depth = 1
    · rw [if_pos h1, h1]
      simp
    · rw [if_neg h1]
      have h2 : 1 < min d img.depth := by omega
      simp [h2]
  · intro s w h d rs
    cases himg : s.image with
    | none =>
      unfold SurfaceState.resize
      rw [himg]
    | some img =>
      unfold SurfaceState.resize
      rw [himg]
      show (if w = img.width ∧ h = img.height ∧ d = img.depth then s
            else { s with image := some ⟨w, h, d, rs⟩ }).type = s.type
      split_ifs <;> rfl

/-- Witness for C3 amended at concrete inputs: `setImage` to depth 3
yields a 3D type matching depth 3; `setImage2D` yields 2D depth 1;
`canvasSize` growing depth from 1 to 2 yields a clamped extent 1 (type
stays 2D) while the depth becomes 2; `resize` to depth 4 keeps a 2D
type. -/
theorem shape_ops_textureType_witness :
    ((SurfaceState.setImage 2 2 3 (fun _ _ _ _ => 0)
        ⟨none, WrapMode.Clamp, AlphaMode.None, false, TextureType.T2D⟩).type = TextureType.T3D ↔
      1 < (SurfaceState.setImage 2 2 3 (fun _ _ _ _ => 0)
        ⟨none, WrapMode.Clamp, AlphaMode.None, false, TextureType.T2D⟩).depth) ∧
    (SurfaceState.setImage2DApply (fun _ _ _ _ _ => 0) 8 8
        ⟨none, WrapMode.Clamp, AlphaMode.None, false, TextureType.T3D⟩).type = TextureType.T2D ∧
    ((SurfaceState.canvasSize 1 1 2
        ⟨some ⟨1, 1, 1, fun _ _ _ _ => (0 : ℚ)⟩,
         WrapMode.Clamp, AlphaMode.None, false, TextureType.T2D⟩).type = TextureType.T3D ↔
      1 < min 2 1) ∧
    (SurfaceState.resize 2 2 4 (fun _ _ _ _ => 0)
        ⟨some ⟨1, 1, 1, fun _ _ _ _ => (0 : ℚ)⟩,
         WrapMode.Clamp, AlphaMode.None, false, TextureType.T2D⟩).type = TextureType.T2D := by
  refine ⟨?_, ?_, ?_, ?_⟩
  · exact (shape_ops_textureType.1
      ⟨none, WrapMode.Clamp, AlphaMode.None, false, TextureType.T2D⟩ 2 2 3
      (fun _ _ _ _ => 0) (by norm_num)).1
  · exact (shape_ops_textureType.2.1
      ⟨none, WrapMode.Clamp, AlphaMode.None, false, TextureType.T3D⟩
      (fun _ _ _ _ => 0) 8 8).1
  · exact (shape_ops_textureType.2.2.1
      ⟨some ⟨1, 1, 1, fun _ _ _ _ => (0 : ℚ)⟩,
       WrapMode.Clamp, AlphaMode.None, false, TextureType.T2D⟩
      ⟨1, 1, 1, fun _ _ _ _ => (0 : ℚ)⟩ 1 1 2 rfl (by norm_num) (by norm_num)
      (by norm_num)).1
  · exact shape_ops_textureType.2.2.2
      ⟨some ⟨1, 1, 1, fun _ _ _ _ => (0 : ℚ)⟩,
       WrapMode.Clamp, AlphaMode.None, false, TextureType.T2D⟩ 2 2 4 (fun _ _ _ _ => 0)

/-- Helper: `nextPowerOfTwo` dominates its argument. -/
theorem le_nextPowerOfTwo (v : Nat) : v ≤ nextPowerOfTwo v :=
  Nat.le_pow_clog (by norm_num) v

/-- Helper: `nextPowerOfTwo` is the least power of two above its
argument. -/
theorem nextPowerOfTwo_le_pow {v k : Nat} (h : v ≤ 2 ^ k) : nextPowerOfTwo v ≤ 2 ^ k :=
  Nat.pow_le_pow_right (by norm_num) ((Nat.le_pow_iff_clog_le (by norm_num)).mp h)

/-- Helper: closed form of `previousPowerOfTwo` on positive input. -/
theorem previousPowerOfTwo_eq_pow (v : Nat) (hv : 1 ≤ v) :
    previousPowerOfTwo v = 2 ^ (Nat.clog 2 (v + 1) - 1) := by
  unfold previousPowerOfTwo nextPowerOfTwo
  have hk : 0 < Nat.clog 2 (v + 1) := Nat.clog_pos (by norm_num) (by omega)
  have h2 : (2 : Nat) ^ Nat.clog 2 (v + 1) / 2 = 2 ^ Nat.clog 2 (v + 1) / 2 ^ 1 := by norm_num
  rw [h2, Nat.pow_div (by omega) (by norm_num)]

/-- Helper: `previousPowerOfTwo` never exceeds its argument. -/
theorem previousPowerOfTwo_le (v : Nat) : previousPowerOfTwo v ≤ v := by
  rcases Nat.eq_zero_or_pos v with rfl | hv
  · simp [previousPowerOfTwo, nextPowerOfTwo, Nat.clog_one_right]
  · rw [previousPowerOfTwo_eq_pow v hv]
    have hlt : 2 ^ (Nat.clog 2 (v + 1) - 1) < v + 1 :=
      Nat.pow_pred_clog_lt_self (by norm_num) (by omega)
    omega

/-- Helper: `previousPowerOfTwo` of a positive value is positive. -/
theorem previousPowerOfTwo_pos (v : Nat) (hv : 1 ≤ v) : 1 ≤ previousPowerOfTwo v := by
  rw [previousPowerOfTwo_eq_pow v hv]
  exact Nat.one_le_two_pow

/-- Helper: the nearest power of two never exceeds the next one. -/
theorem nearestPowerOfTwo_le_next (v : Nat) : nearestPowerOfTwo v ≤ nextPowerOfTwo v := by
  by_cases h : nextPowerOfTwo v - v ≤ v - previousPowerOfTwo v
  · simp only [nearestPowerOfTwo, if_pos h]
    exact le_rfl
  · simp only [nearestPowerOfTwo, if_neg h]
    exact le_trans (previousPowerOfTwo_le v) (le_nextPowerOfTwo v)

/-- Helper: every rounding mode keeps a value below any power-of-two
bound it already satisfies. -/
theorem roundExtent_le_pow (rm : RoundMode) (v k : Nat) (h : v ≤ 2 ^ k) :
    roundExtent rm v ≤ 2 ^ k := by
  cases rm with
  | None => exact h
  | ToNextPowerOfTwo => exact nextPowerOfTwo_le_pow h
  | ToNearestPowerOfTwo =>
      exact le_trans (nearestPowerOfTwo_le_next v) (nextPowerOfTwo_le_pow h)
  | ToPreviousPowerOfTwo => exact le_trans (previousPowerOfTwo_le v) h

/-- Helper: the uniform scaling stage keeps every axis at or below the
cap (when the cap is positive). -/
theorem capExtents_le (w h d cap : Nat) (hcap : 0 < cap) :
    (capExtents w h d cap).1 ≤ cap ∧ (capExtents w h d cap).2.1 ≤ cap ∧
    (capExtents w h d cap).2.2 ≤ cap := by
  unfold capExtents
  by_cases hc : 0 < cap ∧ cap < max (max w h) d
  · rw [if_pos hc]
    have hm : 0 < max (max w h) d := by omega
    have hconv : ∀ a, a ≤ max (max w h) d → max (a * cap / max (max w h) d) 1 ≤ cap := by
      intro a ha
      apply max_le _ hcap
      calc a * cap / max (max w h) d
          ≤ max (max w h) d * cap / max (max w h) d :=
            Nat.div_le_div_right (Nat.mul_le_mul_right cap ha)
        _ = cap := Nat.mul_div_cancel_left cap hm
    exact ⟨hconv w (le_trans (le_max_left w h) (le_max_left _ d)),
           hconv h (le_trans (le_max_right w h) (le_max_left _ d)),
           hconv d (le_max_right _ d)⟩
  · rw [if_neg hc]
    have hm : max (max w h) d ≤ cap := by
      rcases Nat.lt_or_ge cap (max (max w h) d) with hlt | hge
      · exact absurd ⟨hcap, hlt⟩ hc
      · exact hge
    exact ⟨le_trans (le_trans (le_max_left w h) (le_max_left _ d)) hm,
           le_trans (le_trans (le_max_right w h) (le_max_left _ d)) hm,
           le_trans (le_max_right _ d) hm⟩

/-- Helper: the texture-type stage keeps every axis at or below the cap. -/
theorem shapeForType_le (tt : TextureType) (w h d cap : Nat)
    (hw : w ≤ cap) (hh : h ≤ cap) (hd : d ≤ cap) (hcap : 0 < cap) :
    (shapeForType tt w h d).1 ≤ cap ∧ (shapeForType tt w h d).2.1 ≤ cap ∧
    (shapeForType tt w h d).2.2 ≤ cap := by
  cases tt <;> simp only [shapeForType] <;> refine ⟨?_, ?_, ?_⟩ <;> omega

/-- C4: for positive extents and a positive cap, no dimension written
back by `getTargetExtent` exceeds the power-of-two ceiling of the input
cap, for every rounding mode and texture type: when rounding is
requested the cap is itself pre-rounded down to a power of two, and the
scaled shape never exceeds that cap, so each rounded axis stays at or
below it. -/
theorem getTargetExtent_bounded (w h d maxExtent : Nat) (rm : RoundMode) (tt : TextureType)
    (hw : 0 < w) (hh : 0 < h) (hd : 0 < d) (hme : 0 < maxExtent) :
    (getTargetExtent w h d maxExtent rm tt).1 ≤ nextPowerOfTwo maxExtent ∧
    (getTargetExtent w h d maxExtent rm tt).2.1 ≤ nextPowerOfTwo maxExtent ∧
    (getTargetExtent w h d maxExtent rm tt).2.2 ≤ nextPowerOfTwo maxExtent := by
  have hcap_pos : 0 < preRoundCap maxExtent rm := by
    unfold preRoundCap
    split_ifs with hif
    · exact previousPowerOfTwo_pos maxExtent hme
    · exact hme
  have hcapped := capExtents_le w h d (preRoundCap maxExtent rm) hcap_pos
  have hshaped := shapeForType_le tt _ _ _ _ hcapped.1 hcapped.2.1 hcapped.2.2 hcap_pos
  by_cases hrm : rm = RoundMode.None
  · subst hrm
    have hcapeq : preRoundCap maxExtent RoundMode.None = maxExtent := by
      unfold preRoundCap; simp
    rw [hcapeq] at hshaped
    unfold getTargetExtent
    simp only [roundExtent]
    exact ⟨le_trans hshaped.1 (le_nextPowerOfTwo maxExtent),
           le_trans hshaped.2.1 (le_nextPowerOfTwo maxExtent),
           le_trans hshaped.2.2 (le_nextPowerOfTwo maxExtent)⟩
  · have hcapeq : preRoundCap maxExtent rm = previousPowerOfTwo maxExtent := by
      unfold preRoundCap
      rw [if_pos ⟨hrm, hme⟩]
    have hpow : previousPowerOfTwo maxExtent = 2 ^ (Nat.clog 2 (maxExtent + 1) - 1) :=
      previousPowerOfTwo_eq_pow maxExtent hme
    have hck : preRoundCap maxExtent rm = 2 ^ (Nat.clog 2 (maxExtent + 1) - 1) := by
      rw [hcapeq, hpow]
    have hcap_le : (2 : Nat) ^ (Nat.clog 2 (maxExtent + 1) - 1) ≤ nextPowerOfTwo maxExtent := by
      rw [← hpow]
      exact le_trans (previousPowerOfTwo_le maxExtent) (le_nextPowerOfTwo maxExtent)
    unfold getTargetExtent
    exact ⟨le_trans (roundExtent_le_pow rm _ _ (le_trans hshaped.1 (le_of_eq hck))) hcap_le,
           le_trans (roundExtent_le_pow rm _ _ (le_trans hshaped.2.1 (le_of_eq hck))) hcap_le,
           le_trans (roundExtent_le_pow rm _ _ (le_trans hshaped.2.2 (le_of_eq hck))) hcap_le⟩

/-- Witness for C4 at concrete inputs 100 x 60 x 1, cap 37, rounding to
next power of two, 2D texture: every returned dimension is at most
`nextPowerOfTwo 37 = 64`. -/
theorem getTargetExtent_bounded_witness :
    (getTargetExtent 100 60 1 37 RoundMode.ToNextPowerOfTwo TextureType.T2D).1
        ≤ nextPowerOfTwo 37 ∧
    (getTargetExtent 100 60 1 37 RoundMode.ToNextPowerOfTwo TextureType.T2D).2.1
        ≤ nextPowerOfTwo 37 ∧
    (getTargetExtent 100 60 1 37 RoundMode.ToNextPowerOfTwo TextureType.T2D).2.2
        ≤ nextPowerOfTwo 37 :=
  getTargetExtent_bounded 100 60 1 37 RoundMode.ToNextPowerOfTwo TextureType.T2D
    (by norm_num) (by norm_num) (by norm_num) (by norm_num)

end Nvtt
